import Mathlib

/-!
Shallow embedding of `src/simple-vector/simple_vector.h` (class `SimpleVector<Type>`
built on `src/simple-vector/array_ptr.h`'s `ArrayPtr<T>`).

A `SimpleVector` state is modelled by the contents of its allocated block
(`data`, one list entry per allocated slot, stale slots included), the logical
`size` field `size_` and the `capacity` field `capacity_`.  The allocated block
may be longer than `capacity` (this actually happens after `Reserve`, which
sets `capacity_ = new_capacity` while the block allocated by the inner `Resize`
call has `max(capacity*2, new_capacity)` slots).  `new T[n]` followed by the
constructors' fill loops leaves every allocated slot holding a definite value;
fresh slots are modelled as holding `default` (the `Type{}` value).

Moves of elements (`std::move` on ranges) are modelled as copies: the moved-from
slots are always dead (outside `[0, size)`) afterwards, so their residual values
are irrelevant to every claim, and for the embedding we keep the old values.
-/

namespace SimpleVec

/-- State of a `SimpleVector<Type>`: `data` is the contents of the allocated
block held by `items_` (one entry per slot), `size` is `size_`,
`capacity` is `capacity_`. -/
structure SimpleVector (α : Type) where
  data : List α
  size : Nat
  capacity : Nat
deriving Repr, DecidableEq

variable {α : Type}

/-- `std::move(src.begin(), src.end(), dst.begin())` / `std::copy` over a
prefix of `dst`: the first `src.length` slots of `dst` are overwritten by
`src`, the rest of `dst` is kept. -/
def movePrefix (src dst : List α) : List α :=
  src ++ dst.drop src.length

namespace SimpleVector

/-- `SimpleVector() noexcept = default`: size 0, capacity 0, no block. -/
def mkDefault : SimpleVector α := ⟨[], 0, 0⟩

/-- `SimpleVector(size_t size)`: allocates `size` slots and fills `[begin, end)`
with `Type{}` via `std::generate`; `size_ = capacity_ = size`. -/
def mkSized [Inhabited α] (size : Nat) : SimpleVector α :=
  ⟨List.replicate size default, size, size⟩

/-- `SimpleVector(size_t size, const Type& value)`: allocates `size` slots and
fills them with `value` via `std::fill`; `size_ = capacity_ = size`. -/
def mkFilled (size : Nat) (value : α) : SimpleVector α :=
  ⟨List.replicate size value, size, size⟩

/-- `SimpleVector(std::initializer_list<Type> init)`: allocates `init.size()`
default slots and copies the list into them; `size_ = capacity_ = init.size()`. -/
def fromList [Inhabited α] (init : List α) : SimpleVector α :=
  ⟨movePrefix init (List.replicate init.length default), init.length, init.length⟩

/-- `SimpleVector(ReserveProxyObj reserved)`: allocates `reserved.capacity`
slots, `size_ = 0`, `capacity_ = reserved.capacity`. -/
def mkReserved [Inhabited α] (cap : Nat) : SimpleVector α :=
  ⟨List.replicate cap default, 0, cap⟩

/-- `GetSize`. -/
def GetSize (s : SimpleVector α) : Nat := s.size

/-- `GetCapacity`. -/
def GetCapacity (s : SimpleVector α) : Nat := s.capacity

/-- `IsEmpty`: `size_ == 0`. -/
def IsEmpty (s : SimpleVector α) : Bool := s.size == 0

/-- `IsFull`: `size_ == capacity_`. -/
def IsFull (s : SimpleVector α) : Bool := s.size == s.capacity

/-- The live elements `[begin(), end())`, i.e. the first `size_` slots. -/
def elems (s : SimpleVector α) : List α := s.data.take s.size

/-- `SimpleVector(const SimpleVector& other)`: allocates `other.size_` slots
(default-filled), copies `[other.begin(), other.end())` into them;
`size_ = capacity_ = other.size_`. -/
def copyCtor [Inhabited α] (other : SimpleVector α) : SimpleVector α :=
  ⟨movePrefix other.elems (List.replicate other.size default), other.size, other.size⟩

/-- `SimpleVector(SimpleVector&& other)`: steals `other.items_`
(`other`'s pointer becomes null, so its block contents become empty) and
exchanges `other.size_` and `other.capacity_` with 0.  Returns
(constructed vector, moved-from source). -/
def moveCtor (other : SimpleVector α) : SimpleVector α × SimpleVector α :=
  (⟨other.data, other.size, other.capacity⟩, ⟨[], 0, 0⟩)

/-- `swap(SimpleVector& other) noexcept`: exchanges blocks, sizes and
capacities. Returns the pair (this, other) after the exchange. -/
def swapOp (a b : SimpleVector α) : SimpleVector α × SimpleVector α := (b, a)

/-- `Clear() noexcept`: `size_ = 0`. -/
def Clear (s : SimpleVector α) : SimpleVector α := { s with size := 0 }

/-- `operator=(const SimpleVector& other)`: if `other.IsEmpty()` then
`Clear(); capacity_ = 0; items_ = ArrayPtr<Type>()`, else copy-and-swap with
a full copy of `other`.  (The `&other != this` aliasing guard has no effect in
a value model.)  Returns the new value of the assigned-to vector. -/
def copyAssign [Inhabited α] (_this other : SimpleVector α) : SimpleVector α :=
  if other.IsEmpty then ⟨[], 0, 0⟩
  else copyCtor other

/-- `operator=(SimpleVector&& other)`: `swap(other)` (guarded against
self-assignment).  Returns (this, other) after the swap. -/
def moveAssign (a b : SimpleVector α) : SimpleVector α × SimpleVector α :=
  (b, a)

/-- `NewCapacity(const size_t new_size = 1)`: `std::max(capacity_ * 2, new_size)`. -/
def NewCapacity (s : SimpleVector α) (new_size : Nat) : Nat :=
  max (s.capacity * 2) new_size

/-- `IncCapacity()`: build `buffer(NewCapacity())` (the sized constructor:
`NewCapacity()` default slots, size = capacity = `NewCapacity()`), set
`buffer.size_ = size_`, move `[begin, end)` to `buffer.begin()`, swap. -/
def IncCapacity [Inhabited α] (s : SimpleVector α) : SimpleVector α :=
  let buffer : SimpleVector α := mkSized (s.NewCapacity 1)
  ⟨movePrefix s.elems buffer.data, s.size, buffer.capacity⟩

/-- `PushBack(item)`: grow via `IncCapacity` if full, then
`items_[size_++] = item`.  (The by-value and by-rvalue overloads coincide in
the value model.) -/
def PushBack [Inhabited α] (s : SimpleVector α) (item : α) : SimpleVector α :=
  let s1 := if s.IsFull then s.IncCapacity else s
  ⟨s1.data.set s1.size item, s1.size + 1, s1.capacity⟩

/-- `Insert(pos, value)` at index `offset = pos - begin()` (asserted
`0 ≤ offset ≤ size_`): grow if full, `++size_`, shift `[offset, old size)` one
slot right via `std::copy_backward(it, end()-1, end())`, write `value` at
`offset`.  (Both overloads coincide in the value model.) -/
def Insert [Inhabited α] (s : SimpleVector α) (offset : Nat) (value : α) :
    SimpleVector α :=
  let s1 := if s.IsFull then s.IncCapacity else s
  ⟨s1.data.take offset ++ [value] ++ (s1.data.drop offset).take (s1.size - offset)
      ++ s1.data.drop (s1.size + 1),
   s1.size + 1, s1.capacity⟩

/-- `PopBack() noexcept`: `if (!IsEmpty()) --size_`. -/
def PopBack (s : SimpleVector α) : SimpleVector α :=
  if s.IsEmpty then s else { s with size := s.size - 1 }

/-- `Erase(pos)` at index `offset = pos - begin()` (asserted
`0 ≤ offset < size_`): `std::move(pos+1, end(), pos)` shifts
`[offset+1, size_)` one slot left, then `--size_`.  The last shifted-from slot
(index `size_-1`) keeps its old value in the model (it is moved-from and dead
in the source). -/
def Erase (s : SimpleVector α) (offset : Nat) : SimpleVector α :=
  ⟨s.data.take offset ++ (s.data.drop (offset + 1)).take (s.size - offset - 1)
      ++ s.data.drop (s.size - 1),
   s.size - 1, s.capacity⟩

/-- `Resize(new_size)`: if `new_size > capacity_`, build
`buffer(NewCapacity(new_size))` (sized constructor), move the live elements
into it, swap, then `size_ = new_size`; else if `new_size > size_`,
`std::generate(end(), begin() + new_size, Type{})`; finally `size_ = new_size`. -/
def Resize [Inhabited α] (s : SimpleVector α) (new_size : Nat) : SimpleVector α :=
  if new_size > s.capacity then
    let new_capacity := s.NewCapacity new_size
    let buffer : SimpleVector α := mkSized new_capacity
    ⟨movePrefix s.elems buffer.data, new_size, buffer.capacity⟩
  else if new_size > s.size then
    ⟨s.data.take s.size ++ List.replicate (new_size - s.size) default
        ++ s.data.drop new_size,
     new_size, s.capacity⟩
  else
    { s with size := new_size }

/-- `Reserve(new_capacity)`: if `new_capacity > capacity_`, save `size_`,
`Resize(new_capacity)`, restore `size_`, then `capacity_ = new_capacity`;
else no-op. -/
def Reserve [Inhabited α] (s : SimpleVector α) (new_capacity : Nat) :
    SimpleVector α :=
  if new_capacity > s.capacity then
    let t := s.Resize new_capacity
    ⟨t.data, s.size, new_capacity⟩
  else s

/-- `At(index)`: throws `std::out_of_range("Index out of range")` when
`index >= size_`, else returns `items_[index]`.  The method reads the state
only (no member is written), so it is embedded as a pure function on the
state. -/
def At [Inhabited α] (s : SimpleVector α) (index : Nat) : Except String α :=
  if index ≥ s.size then Except.error "Index out of range"
  else Except.ok (s.data.getD index default)

/-- Structural invariant of the container (claim C9's invariant):
`size_ ≤ capacity_`, and the allocated block has at least `capacity_` slots
(all of which hold values by construction of the embedding). -/
def Inv (s : SimpleVector α) : Prop :=
  s.size ≤ s.capacity ∧ s.capacity ≤ s.data.length

instance (s : SimpleVector α) : Decidable s.Inv := by
  unfold Inv; infer_instance

end SimpleVector

/-- `std::lexicographical_compare_three_way` with the default comparator over
a strongly ordered element type. -/
def lexCompare [LinearOrder α] : List α → List α → Ordering
  | [], [] => Ordering.eq
  | [], _ :: _ => Ordering.lt
  | _ :: _, [] => Ordering.gt
  | a :: as, b :: bs =>
    match compare a b with
    | Ordering.lt => Ordering.lt
    | Ordering.gt => Ordering.gt
    | Ordering.eq => lexCompare as bs

namespace SimpleVector

/-- `operator<=>`: lexicographic three-way comparison over `[cbegin, cend)`. -/
def threeWay [LinearOrder α] (lhs rhs : SimpleVector α) : Ordering :=
  lexCompare lhs.elems rhs.elems

/-- `operator==`: `(lhs <=> rhs) == std::strong_ordering::equal`. -/
def beqOp [LinearOrder α] (lhs rhs : SimpleVector α) : Bool :=
  threeWay lhs rhs == Ordering.eq

/-- `operator!=`: `(lhs <=> rhs) != std::strong_ordering::equal`. -/
def bneOp [LinearOrder α] (lhs rhs : SimpleVector α) : Bool :=
  threeWay lhs rhs != Ordering.eq

/-- `operator<`: `(lhs <=> rhs) == std::strong_ordering::less`. -/
def bltOp [LinearOrder α] (lhs rhs : SimpleVector α) : Bool :=
  threeWay lhs rhs == Ordering.lt

/-- `operator>`: `(lhs <=> rhs) == std::strong_ordering::greater`. -/
def bgtOp [LinearOrder α] (lhs rhs : SimpleVector α) : Bool :=
  threeWay lhs rhs == Ordering.gt

/-- `operator<=`: `(lhs <=> rhs) != std::strong_ordering::greater`. -/
def bleOp [LinearOrder α] (lhs rhs : SimpleVector α) : Bool :=
  threeWay lhs rhs != Ordering.gt

/-- `operator>=`: `(lhs <=> rhs) != std::strong_ordering::less`. -/
def bgeOp [LinearOrder α] (lhs rhs : SimpleVector α) : Bool :=
  threeWay lhs rhs != Ordering.lt

end SimpleVector

/-! Helper lemmas about the embedding. -/

lemma movePrefix_length (src dst : List α) :
    (movePrefix src dst).length = max src.length dst.length := by
  simp only [movePrefix, List.length_append, List.length_drop]
  omega

namespace SimpleVector

lemma elems_length {s : SimpleVector α} (h : s.Inv) : s.elems.length = s.size := by
  obtain ⟨h1, h2⟩ := h
  simp only [elems, List.length_take]
  omega

lemma elems_length_le (s : SimpleVector α) : s.elems.length ≤ s.size := by
  simp only [elems, List.length_take]
  omega

lemma incCapacity_size [Inhabited α] (s : SimpleVector α) :
    (s.IncCapacity).size = s.size := rfl

lemma incCapacity_capacity [Inhabited α] (s : SimpleVector α) :
    (s.IncCapacity).capacity = max (s.capacity * 2) 1 := rfl

lemma size_lt_newCapacity {s : SimpleVector α} (h : s.size ≤ s.capacity) :
    s.size < s.NewCapacity 1 := by
  simp only [NewCapacity]
  omega

lemma incCapacity_data_length [Inhabited α] {s : SimpleVector α} (h : s.Inv) :
    (s.IncCapacity).data.length = s.NewCapacity 1 := by
  have h1 := elems_length h
  have h2 := size_lt_newCapacity h.1
  simp only [IncCapacity, mkSized, movePrefix_length, List.length_replicate]
  omega

lemma incCapacity_elems [Inhabited α] {s : SimpleVector α} (h : s.Inv) :
    (s.IncCapacity).elems = s.elems := by
  have h1 := elems_length h
  show (movePrefix s.elems (mkSized (α := α) (s.NewCapacity 1)).data).take s.size
      = s.elems
  rw [movePrefix, List.take_append_of_le_length (by omega), ← h1, List.take_length]

lemma incCapacity_inv [Inhabited α] {s : SimpleVector α} (h : s.Inv) :
    (s.IncCapacity).Inv := by
  have h2 := size_lt_newCapacity h.1
  have h3 := incCapacity_data_length h
  constructor
  · rw [incCapacity_size, incCapacity_capacity]
    have := h.1
    simp only [NewCapacity] at h2
    omega
  · rw [incCapacity_capacity, h3]
    exact le_refl _

lemma grow_spec [Inhabited α] {s : SimpleVector α} (h : s.Inv) :
    (if s.IsFull then s.IncCapacity else s).elems = s.elems
    ∧ (if s.IsFull then s.IncCapacity else s).size = s.size
    ∧ (if s.IsFull then s.IncCapacity else s).size
        < (if s.IsFull then s.IncCapacity else s).capacity
    ∧ (if s.IsFull then s.IncCapacity else s).capacity
        ≤ (if s.IsFull then s.IncCapacity else s).data.length := by
  by_cases hf : s.IsFull = true
  · have h2 := size_lt_newCapacity h.1
    have h3 := incCapacity_data_length h
    have h4 := (incCapacity_inv h).2
    rw [if_pos hf]
    refine ⟨incCapacity_elems h, incCapacity_size s, ?_, h4⟩
    rw [incCapacity_size, incCapacity_capacity]
    simpa [NewCapacity] using h2
  · have hne : s.size ≠ s.capacity := by
      simpa [IsFull] using hf
    have hle := h.1
    have hle2 := h.2
    rw [if_neg hf]
    exact ⟨rfl, rfl, by omega, by omega⟩

end SimpleVector

/-- Live part after the right-shift performed by `Insert`: shifting
`[offset, sz)` one slot right inside `d` and writing `v` at `offset` makes the
first `sz + 1` slots equal to the old live prefix with `v` inserted at
`offset`. -/
lemma take_shift_right (d : List α) (v : α) (offset sz : Nat)
    (hoff : offset ≤ sz) (hsz : sz < d.length) :
    (d.take offset ++ [v] ++ (d.drop offset).take (sz - offset)
        ++ d.drop (sz + 1)).take (sz + 1)
      = (d.take sz).take offset ++ v :: (d.take sz).drop offset := by
  have hE : ((d.take offset ++ [v]) ++ (d.drop offset).take (sz - offset)).length
      = sz + 1 := by
    simp only [List.length_append, List.length_take, List.length_cons,
      List.length_nil, List.length_drop]
    omega
  rw [List.take_append_of_le_length (le_of_eq hE.symm), ← hE, List.take_length,
    List.take_take, List.drop_take]
  have hmin : offset ⊓ sz = offset := min_eq_left hoff
  rw [hmin]
  simp [List.append_assoc]

/-- Live part after the left-shift performed by `Erase`: shifting
`[offset + 1, sz)` one slot left inside `d` makes the first `sz - 1` slots
equal to the old live prefix with the element at `offset` removed. -/
lemma take_shift_left (d : List α) (offset sz : Nat)
    (hoff : offset < sz) (hsz : sz ≤ d.length) :
    (d.take offset ++ (d.drop (offset + 1)).take (sz - offset - 1)
        ++ d.drop (sz - 1)).take (sz - 1)
      = (d.take sz).take offset ++ (d.take sz).drop (offset + 1) := by
  have hE : (d.take offset ++ (d.drop (offset + 1)).take (sz - offset - 1)).length
      = sz - 1 := by
    simp only [List.length_append, List.length_take, List.length_drop]
    omega
  rw [List.take_append_of_le_length (le_of_eq hE.symm), ← hE, List.take_length,
    List.take_take, List.drop_take]
  have hmin : offset ⊓ sz = offset := min_eq_left (le_of_lt hoff)
  have hsub : sz - (offset + 1) = sz - offset - 1 := by omega
  rw [hmin, hsub]

namespace SimpleVector

lemma pushBack_spec [Inhabited α] {s : SimpleVector α} (h : s.Inv) (item : α) :
    (s.PushBack item).size = s.size + 1
    ∧ (s.PushBack item).Inv := by
  obtain ⟨he, hsz, hlt, hle⟩ := grow_spec (s := s) h
  unfold PushBack
  refine ⟨?_, ⟨?_, ?_⟩⟩
  · show (if s.IsFull then s.IncCapacity else s).size + 1 = s.size + 1
    omega
  · show (if s.IsFull then s.IncCapacity else s).size + 1
        ≤ (if s.IsFull then s.IncCapacity else s).capacity
    omega
  · show (if s.IsFull then s.IncCapacity else s).capacity
        ≤ ((if s.IsFull then s.IncCapacity else s).data.set _ item).length
    rw [List.length_set]
    exact hle

lemma insert_spec [Inhabited α] {s : SimpleVector α} (h : s.Inv) {offset : Nat}
    (hoff : offset ≤ s.size) (value : α) :
    (s.Insert offset value).elems
      = s.elems.take offset ++ value :: s.elems.drop offset
    ∧ (s.Insert offset value).size = s.size + 1
    ∧ (s.Insert offset value).Inv := by
  obtain ⟨he, hsz, hlt, hle⟩ := grow_spec (s := s) h
  set s1 := if s.IsFull then s.IncCapacity else s with hs1
  have hszlt : s1.size < s1.data.length := lt_of_lt_of_le hlt hle
  have hoff1 : offset ≤ s1.size := by omega
  have hdata : (s.Insert offset value).data
      = s1.data.take offset ++ [value] ++ (s1.data.drop offset).take (s1.size - offset)
        ++ s1.data.drop (s1.size + 1) := rfl
  have hsize : (s.Insert offset value).size = s1.size + 1 := rfl
  have hcap : (s.Insert offset value).capacity = s1.capacity := rfl
  refine ⟨?_, by rw [hsize, hsz], ⟨?_, ?_⟩⟩
  · show (s.Insert offset value).data.take (s.Insert offset value).size
        = s.elems.take offset ++ value :: s.elems.drop offset
    rw [hdata, hsize, take_shift_right s1.data value offset s1.size hoff1 hszlt]
    rw [← he]
    rfl
  · rw [hsize, hcap]
    omega
  · rw [hcap, hdata]
    simp only [List.length_append, List.length_take, List.length_cons,
      List.length_nil, List.length_drop]
    omega

lemma erase_spec {s : SimpleVector α} (h : s.Inv) {offset : Nat}
    (hoff : offset < s.size) :
    (s.Erase offset).elems = s.elems.take offset ++ s.elems.drop (offset + 1)
    ∧ (s.Erase offset).size = s.size - 1
    ∧ (s.Erase offset).capacity = s.capacity
    ∧ (s.Erase offset).Inv := by
  have h1 := h.1
  have h2 := h.2
  have hsz : s.size ≤ s.data.length := by omega
  refine ⟨?_, rfl, rfl, ⟨by show s.size - 1 ≤ s.capacity; omega, ?_⟩⟩
  · show (s.Erase offset).data.take (s.Erase offset).size
        = s.elems.take offset ++ s.elems.drop (offset + 1)
    have hdata : (s.Erase offset).data
        = s.data.take offset ++ (s.data.drop (offset + 1)).take (s.size - offset - 1)
          ++ s.data.drop (s.size - 1) := rfl
    rw [hdata]
    exact take_shift_left s.data offset s.size hoff hsz
  · show s.capacity ≤ (s.Erase offset).data.length
    have hdata : (s.Erase offset).data
        = s.data.take offset ++ (s.data.drop (offset + 1)).take (s.size - offset - 1)
          ++ s.data.drop (s.size - 1) := rfl
    rw [hdata]
    simp only [List.length_append, List.length_take, List.length_drop]
    omega

lemma resize_size [Inhabited α] (s : SimpleVector α) (n : Nat) :
    (s.Resize n).size = n := by
  unfold Resize
  split
  · rfl
  · split <;> rfl

lemma resize_capacity_of_gt [Inhabited α] {s : SimpleVector α} {n : Nat}
    (hn : n > s.capacity) :
    (s.Resize n).capacity = max (s.capacity * 2) n := by
  unfold Resize
  rw [if_pos hn]
  rfl

lemma resize_data_of_gt [Inhabited α] {s : SimpleVector α} {n : Nat}
    (hn : n > s.capacity) :
    (s.Resize n).data
      = s.elems ++ List.replicate (s.NewCapacity n - s.elems.length) default := by
  unfold Resize
  rw [if_pos hn]
  show movePrefix s.elems (List.replicate (s.NewCapacity n) default)
      = s.elems ++ List.replicate (s.NewCapacity n - s.elems.length) default
  rw [movePrefix, List.drop_replicate]

lemma resize_data_length_of_gt [Inhabited α] {s : SimpleVector α} {n : Nat}
    (h : s.size ≤ s.capacity) (hn : n > s.capacity) :
    (s.Resize n).data.length = s.NewCapacity n := by
  have h1 := elems_length_le s
  rw [resize_data_of_gt hn]
  simp only [List.length_append, List.length_replicate, NewCapacity]
  omega

lemma resize_elems_of_gt [Inhabited α] {s : SimpleVector α} {n : Nat}
    (h : s.Inv) (hn : s.size < n) :
    (s.Resize n).elems = s.elems ++ List.replicate (n - s.size) default := by
  have hel := elems_length h
  have h1 := h.1
  have h2 := h.2
  by_cases hcap : n > s.capacity
  · show (s.Resize n).data.take (s.Resize n).size
        = s.elems ++ List.replicate (n - s.size) default
    rw [resize_size, resize_data_of_gt hcap, List.take_append_eq_append_take,
      List.take_replicate, List.take_of_length_le (by omega)]
    congr 1
    congr 1
    simp only [NewCapacity]
    omega
  · have hle : n ≤ s.capacity := by omega
    show (s.Resize n).data.take (s.Resize n).size
        = s.elems ++ List.replicate (n - s.size) default
    have hdata : (s.Resize n).data
        = s.data.take s.size ++ List.replicate (n - s.size) default
          ++ s.data.drop n := by
      unfold Resize
      rw [if_neg (by omega), if_pos (by omega)]
    have hE : (s.data.take s.size ++ List.replicate (n - s.size) default).length
        = n := by
      simp only [List.length_append, List.length_take, List.length_replicate]
      omega
    rw [resize_size, hdata, List.take_left' hE]
    rfl

lemma resize_elems_of_le [Inhabited α] {s : SimpleVector α} {n : Nat}
    (h : s.Inv) (hn : n ≤ s.size) :
    (s.Resize n).elems = s.elems.take n := by
  have h1 := h.1
  have hdef : s.Resize n = { s with size := n } := by
    unfold Resize
    rw [if_neg (by omega), if_neg (by omega)]
  rw [hdef]
  show s.data.take n = (s.data.take s.size).take n
  rw [List.take_take, min_eq_left hn]

lemma resize_inv [Inhabited α] {s : SimpleVector α} (n : Nat) (h : s.Inv) :
    (s.Resize n).Inv := by
  have h1 := h.1
  have h2 := h.2
  by_cases hcap : n > s.capacity
  · constructor
    · rw [resize_size, resize_capacity_of_gt hcap]
      omega
    · rw [resize_capacity_of_gt hcap, resize_data_length_of_gt h1 hcap]
      simp only [NewCapacity]
      omega
  · by_cases hsz : n > s.size
    · have hdata : (s.Resize n).data
          = s.data.take s.size ++ List.replicate (n - s.size) default
            ++ s.data.drop n := by
        unfold Resize
        rw [if_neg (by omega), if_pos (by omega)]
      have hc : (s.Resize n).capacity = s.capacity := by
        unfold Resize
        rw [if_neg (by omega), if_pos (by omega)]
      constructor
      · rw [resize_size, hc]
        omega
      · rw [hc, hdata]
        simp only [List.length_append, List.length_take, List.length_replicate,
          List.length_drop]
        omega
    · have hdef : s.Resize n = { s with size := n } := by
        unfold Resize
        rw [if_neg (by omega), if_neg (by omega)]
      rw [hdef]
      exact ⟨by show n ≤ s.capacity; omega, h2⟩

lemma reserve_of_le [Inhabited α] {s : SimpleVector α} {n : Nat}
    (hn : n ≤ s.capacity) :
    s.Reserve n = s := by
  unfold Reserve
  rw [if_neg (by omega)]

lemma reserve_size_of_gt [Inhabited α] {s : SimpleVector α} {n : Nat}
    (hn : n > s.capacity) :
    (s.Reserve n).size = s.size := by
  unfold Reserve
  rw [if_pos hn]

lemma reserve_capacity_of_gt [Inhabited α] {s : SimpleVector α} {n : Nat}
    (hn : n > s.capacity) :
    (s.Reserve n).capacity = n := by
  unfold Reserve
  rw [if_pos hn]

lemma reserve_data_of_gt [Inhabited α] {s : SimpleVector α} {n : Nat}
    (hn : n > s.capacity) :
    (s.Reserve n).data = (s.Resize n).data := by
  unfold Reserve
  rw [if_pos hn]

lemma reserve_elems_of_gt [Inhabited α] {s : SimpleVector α} {n : Nat}
    (h : s.Inv) (hn : n > s.capacity) :
    (s.Reserve n).elems = s.elems := by
  have hel := elems_length h
  show (s.Reserve n).data.take (s.Reserve n).size = s.elems
  rw [reserve_size_of_gt hn, reserve_data_of_gt hn, resize_data_of_gt hn,
    List.take_append_of_le_length (by omega), ← hel, List.take_length]

lemma reserve_inv [Inhabited α] {s : SimpleVector α} (n : Nat) (h : s.Inv) :
    (s.Reserve n).Inv := by
  by_cases hn : n > s.capacity
  · have h1 := h.1
    have hlen := resize_data_length_of_gt h1 hn
    constructor
    · rw [reserve_size_of_gt hn, reserve_capacity_of_gt hn]
      omega
    · rw [reserve_capacity_of_gt hn, reserve_data_of_gt hn, hlen]
      simp only [NewCapacity]
      omega
  · rw [reserve_of_le (by omega)]
    exact h

end SimpleVector

lemma lexCompare_eq_iff [LinearOrder α] :
    ∀ (as bs : List α), lexCompare as bs = Ordering.eq ↔ as = bs := by
  intro as
  induction as with
  | nil =>
    intro bs
    cases bs <;> simp [lexCompare]
  | cons a as ih =>
    intro bs
    cases bs with
    | nil => simp [lexCompare]
    | cons b bs =>
      rcases lt_trichotomy a b with hlt | heq | hgt
      · have hc : compare a b = Ordering.lt := compare_lt_iff_lt.mpr hlt
        simp [lexCompare, hc, ne_of_lt hlt]
      · subst heq
        have hc : compare a a = Ordering.eq := compare_eq_iff_eq.mpr rfl
        simp [lexCompare, hc, ih]
      · have hc : compare a b = Ordering.gt := compare_gt_iff_gt.mpr hgt
        simp [lexCompare, hc, ne_of_gt hgt]

lemma lexCompare_append_lt [LinearOrder α] :
    ∀ (l t : List α), t ≠ [] → lexCompare l (l ++ t) = Ordering.lt := by
  intro l
  induction l with
  | nil =>
    intro t ht
    cases t with
    | nil => exact absurd rfl ht
    | cons c cs => simp [lexCompare]
  | cons a as ih =>
    intro t ht
    have hc : compare a a = Ordering.eq := compare_eq_iff_eq.mpr rfl
    simpa [lexCompare, hc] using ih t ht

namespace SimpleVector

lemma elems_getD [Inhabited α] {s : SimpleVector α} (h : s.Inv) {i : Nat}
    (hi : i < s.size) :
    s.elems.getD i default = s.data.getD i default := by
  have h1 : i < s.elems.length := by
    rw [elems_length h]
    exact hi
  have h2 : i < s.data.length := by
    have := h.1
    have := h.2
    omega
  rw [List.getD_eq_getElem _ _ h1, List.getD_eq_getElem _ _ h2]
  simp [elems]

lemma elems_eq_iff [Inhabited α] {A B : SimpleVector α}
    (hA : A.Inv) (hB : B.Inv) :
    A.elems = B.elems
      ↔ A.size = B.size
          ∧ ∀ i < A.size, A.data.getD i default = B.data.getD i default := by
  constructor
  · intro he
    have hlen : A.size = B.size := by
      rw [← elems_length hA, ← elems_length hB, he]
    refine ⟨hlen, fun i hi => ?_⟩
    rw [← elems_getD hA hi, ← elems_getD hB (hlen ▸ hi), he]
  · rintro ⟨hlen, hpt⟩
    apply List.ext_getElem
    · rw [elems_length hA, elems_length hB, hlen]
    · intro i h1 h2
      have hi : i < A.size := by
        rw [← elems_length hA]
        exact h1
      have hgd := hpt i hi
      rw [← elems_getD hA hi, ← elems_getD hB (hlen ▸ hi)] at hgd
      rw [List.getD_eq_getElem _ _ h1, List.getD_eq_getElem _ _ h2] at hgd
      exact hgd

end SimpleVector

/-! Claim theorems. -/

/-- C1: for every two vectors `A` and `B` of the same element type,
`operator==` (`beqOp`) returns true iff `A` and `B` have the same size
(`GetSize`) and all corresponding elements are equal, and this coincides
exactly with the three-way comparison `operator<=>` (`threeWay`) returning
`equal`. -/
theorem C1_equality_spec [LinearOrder α] [Inhabited α] (A B : SimpleVector α)
    (hA : A.Inv) (hB : B.Inv) :
    (A.beqOp B = true
      ↔ A.GetSize = B.GetSize
          ∧ ∀ i < A.GetSize, A.data.getD i default = B.data.getD i default)
    ∧ (A.beqOp B = true ↔ A.threeWay B = Ordering.eq) := by
  have hkey : A.beqOp B = true ↔ A.threeWay B = Ordering.eq := by
    cases h : A.threeWay B <;> simp only [SimpleVector.beqOp, h] <;> decide
  refine ⟨?_, hkey⟩
  rw [hkey]
  show lexCompare A.elems B.elems = Ordering.eq ↔ _
  rw [lexCompare_eq_iff, SimpleVector.elems_eq_iff hA hB]
  exact Iff.rfl

/-- Witness for C1 at `A = B = [1, 2]` over `Nat`. -/
theorem C1_equality_spec_witness :
    (SimpleVector.fromList [1, 2] : SimpleVector Nat).beqOp
      (SimpleVector.fromList [1, 2]) = true :=
  (C1_equality_spec (SimpleVector.fromList [1, 2])
      (SimpleVector.fromList [1, 2]) (by decide) (by decide)).1.mpr
    ⟨rfl, by decide⟩

/-- C2: for every two vectors `A` and `B`, exactly one of `A < B`, `A == B`,
`A > B` holds, and if the live sequence of `A` is a strict prefix of that of
`B` then `A < B`. -/
theorem C2_trichotomy_spec [LinearOrder α] (A B : SimpleVector α) :
    ((A.bltOp B = true ∧ A.beqOp B = false ∧ A.bgtOp B = false)
      ∨ (A.bltOp B = false ∧ A.beqOp B = true ∧ A.bgtOp B = false)
      ∨ (A.bltOp B = false ∧ A.beqOp B = false ∧ A.bgtOp B = true))
    ∧ (A.elems <+: B.elems → A.elems ≠ B.elems → A.bltOp B = true) := by
  constructor
  · cases h : A.threeWay B with
    | lt =>
      refine Or.inl ⟨?_, ?_, ?_⟩ <;> simp only [SimpleVector.bltOp,
        SimpleVector.beqOp, SimpleVector.bgtOp, h] <;> decide
    | eq =>
      refine Or.inr (Or.inl ⟨?_, ?_, ?_⟩) <;> simp only [SimpleVector.bltOp,
        SimpleVector.beqOp, SimpleVector.bgtOp, h] <;> decide
    | gt =>
      refine Or.inr (Or.inr ⟨?_, ?_, ?_⟩) <;> simp only [SimpleVector.bltOp,
        SimpleVector.beqOp, SimpleVector.bgtOp, h] <;> decide
  · intro hpre hne
    obtain ⟨t, ht⟩ := hpre
    have htne : t ≠ [] := by
      rintro rfl
      exact hne (by simpa using ht)
    have hlt : A.threeWay B = Ordering.lt := by
      show lexCompare A.elems B.elems = Ordering.lt
      rw [← ht]
      exact lexCompare_append_lt _ _ htne
    simp only [SimpleVector.bltOp, hlt]
    decide

/-- Witness for C2's prefix rule at `A = [1]`, `B = [1, 2]` over `Nat`. -/
theorem C2_trichotomy_spec_witness :
    (SimpleVector.fromList [1] : SimpleVector Nat).bltOp
      (SimpleVector.fromList [1, 2]) = true :=
  (C2_trichotomy_spec (SimpleVector.fromList [1])
      (SimpleVector.fromList [1, 2])).2 ⟨[2], by decide⟩ (by decide)

/-- C3: for every well-formed vector and every position `pos` in `[0, size]`,
`Insert(pos, v)` followed by `Erase` at the inserted position restores the
original element sequence exactly (same size and element values; the capacity
may differ). -/
theorem C3_insert_erase_spec [Inhabited α] (s : SimpleVector α) (v : α)
    (pos : Nat) (h : s.Inv) (hpos : pos ≤ s.size) :
    ((s.Insert pos v).Erase pos).elems = s.elems
    ∧ ((s.Insert pos v).Erase pos).size = s.size := by
  obtain ⟨he, hsz, hinv⟩ := SimpleVector.insert_spec h hpos v
  have hpos2 : pos < (s.Insert pos v).size := by omega
  obtain ⟨he2, hsz2, hcap2, hinv2⟩ := SimpleVector.erase_spec hinv hpos2
  have helen : s.elems.length = s.size := SimpleVector.elems_length h
  have hlen : (s.elems.take pos).length = pos := by
    simp only [List.length_take]
    omega
  constructor
  · rw [he2, he, List.take_left' hlen, List.drop_append_eq_append_drop, hlen,
      List.drop_eq_nil_of_le (by omega), List.nil_append]
    have hone : pos + 1 - pos = 1 := by omega
    rw [hone, List.drop_one, List.tail_cons, List.take_append_drop]
  · omega

/-- Witness for C3 at `s = [1, 2, 3]`, `pos = 1`, `v = 9` over `Nat`. -/
theorem C3_insert_erase_spec_witness :
    (((SimpleVector.fromList [1, 2, 3] : SimpleVector Nat).Insert 1 9).Erase 1).elems
      = (SimpleVector.fromList [1, 2, 3] : SimpleVector Nat).elems :=
  (C3_insert_erase_spec (SimpleVector.fromList [1, 2, 3]) 9 1
      (by decide) (by decide)).1

/-- C4: for every well-formed vector, `Resize(n)` makes the size exactly `n`;
if `n` is greater than the old size the elements at indices `[old size, n)`
equal the default value; if `n` is at most the old size the first `n` original
elements are unchanged. -/
theorem C4_resize_spec [Inhabited α] (s : SimpleVector α) (n : Nat)
    (h : s.Inv) :
    (s.Resize n).size = n
    ∧ (s.size < n →
        (s.Resize n).elems = s.elems ++ List.replicate (n - s.size) default)
    ∧ (n ≤ s.size → (s.Resize n).elems = s.elems.take n) :=
  ⟨SimpleVector.resize_size s n,
    fun hn => SimpleVector.resize_elems_of_gt h hn,
    fun hn => SimpleVector.resize_elems_of_le h hn⟩

/-- Witness for C4 at `s = [1, 2]`, `n = 4` over `Nat`. -/
theorem C4_resize_spec_witness :
    ((SimpleVector.fromList [1, 2] : SimpleVector Nat).Resize 4).elems
      = (SimpleVector.fromList [1, 2] : SimpleVector Nat).elems
          ++ List.replicate (4 - (SimpleVector.fromList [1, 2] :
              SimpleVector Nat).size) default :=
  (C4_resize_spec (SimpleVector.fromList [1, 2]) 4 (by decide)).2.1 (by decide)

/-- C5: for every well-formed vector, `Reserve(n)` with `n ≤ capacity` changes
nothing at all, and `Reserve(n)` with `n > capacity` makes the capacity field
exactly `n` while the size and all live elements are unchanged. -/
theorem C5_reserve_spec [Inhabited α] (s : SimpleVector α) (n : Nat)
    (h : s.Inv) :
    (n ≤ s.capacity → s.Reserve n = s)
    ∧ (s.capacity < n →
        (s.Reserve n).capacity = n
          ∧ (s.Reserve n).size = s.size
          ∧ (s.Reserve n).elems = s.elems) :=
  ⟨fun hn => SimpleVector.reserve_of_le hn,
    fun hn => ⟨SimpleVector.reserve_capacity_of_gt hn,
      SimpleVector.reserve_size_of_gt hn,
      SimpleVector.reserve_elems_of_gt h hn⟩⟩

/-- Witness for C5 at `s = [1]`, `n = 5` over `Nat`. -/
theorem C5_reserve_spec_witness :
    ((SimpleVector.fromList [1] : SimpleVector Nat).Reserve 5).capacity = 5 :=
  ((C5_reserve_spec (SimpleVector.fromList [1]) 5 (by decide)).2 (by decide)).1

/-- C6 counterexample: the claim's rule "a growth driven by an explicit
required size via resize or reserve yields capacity `max(old capacity * 2,
requiredSize)`" fails for `Reserve`: on a vector of capacity 2, `Reserve(3)`
leaves the capacity field at exactly 3, not `max(2 * 2, 3) = 4` (the code sets
`capacity_ = new_capacity` after the inner `Resize`). -/
theorem C6_growth_policy_counterexample :
    ¬ ((SimpleVector.mkSized 2 : SimpleVector Nat).Reserve 3).capacity
        = max ((SimpleVector.mkSized 2 : SimpleVector Nat).capacity * 2) 3 := by
  decide

/-- C6 (amended): an append (`PushBack`) or positional `Insert` on a full
container yields capacity `max(old capacity * 2, 1)`, a growth driven by
`Resize` yields capacity `max(old capacity * 2, requiredSize)`, and a growth
driven by `Reserve` yields a capacity of exactly `requiredSize`. -/
theorem C6_growth_policy_spec [Inhabited α] (s : SimpleVector α) (v : α)
    (offset n : Nat) :
    (s.IsFull = true →
        (s.PushBack v).capacity = max (s.capacity * 2) 1
          ∧ (s.Insert offset v).capacity = max (s.capacity * 2) 1)
    ∧ (s.capacity < n → (s.Resize n).capacity = max (s.capacity * 2) n)
    ∧ (s.capacity < n → (s.Reserve n).capacity = n) := by
  refine ⟨fun hf => ⟨?_, ?_⟩, fun hn => SimpleVector.resize_capacity_of_gt hn,
    fun hn => SimpleVector.reserve_capacity_of_gt hn⟩
  · show (if s.IsFull then s.IncCapacity else s).capacity = max (s.capacity * 2) 1
    rw [if_pos hf, SimpleVector.incCapacity_capacity]
  · show (if s.IsFull then s.IncCapacity else s).capacity = max (s.capacity * 2) 1
    rw [if_pos hf, SimpleVector.incCapacity_capacity]

/-- Witness for C6 (amended) at a full vector `[1]` over `Nat` and `n = 7`. -/
theorem C6_growth_policy_spec_witness :
    ((SimpleVector.fromList [1] : SimpleVector Nat).PushBack 2).capacity
      = max ((SimpleVector.fromList [1] : SimpleVector Nat).capacity * 2) 1 :=
  ((C6_growth_policy_spec (SimpleVector.fromList [1]) 2 0 7).1 (by decide)).1

/-- C7 counterexample: the source of a move-assignment is not left empty when
the destination was non-empty: move-assigning `[7]` into a vector of size 1
leaves the source with size 1 and capacity 1 (the operator swaps the two
states). -/
theorem C7_moved_from_counterexample :
    ¬ (((SimpleVector.mkSized 1 : SimpleVector Nat).moveAssign
          (SimpleVector.fromList [7])).2.size = 0
        ∧ ((SimpleVector.mkSized 1 : SimpleVector Nat).moveAssign
            (SimpleVector.fromList [7])).2.capacity = 0) := by
  decide

/-- C7 (amended): the source of a move-construction is left valid but empty
(size 0, capacity 0, no owned block), while move-assignment swaps, leaving
the source holding the destination's prior state (so it is empty only if the
destination was). -/
theorem C7_moved_from_spec (other a b : SimpleVector α) :
    ((SimpleVector.moveCtor other).2.size = 0
      ∧ (SimpleVector.moveCtor other).2.capacity = 0
      ∧ (SimpleVector.moveCtor other).2.data = [])
    ∧ (a.moveAssign b).2 = a :=
  ⟨⟨rfl, rfl, rfl⟩, rfl⟩

/-- C8: for every vector and index `i`, the checked access `At(i)` fails with
the out-of-range error iff `i ≥ size`, and when `i < size` it returns the
element at index `i`.  `At` reads the state only (the embedding is a pure
function of the state, matching the source method, which writes no member), so
a failing call mutates nothing. -/
theorem C8_at_spec [Inhabited α] (s : SimpleVector α) (i : Nat) :
    ((∃ msg, s.At i = Except.error msg) ↔ s.size ≤ i)
    ∧ (i < s.size → s.At i = Except.ok (s.data.getD i default)) := by
  constructor
  · constructor
    · rintro ⟨msg, hmsg⟩
      by_contra hlt
      unfold SimpleVector.At at hmsg
      rw [if_neg (by omega)] at hmsg
      cases hmsg
    · intro hge
      refine ⟨"Index out of range", ?_⟩
      unfold SimpleVector.At
      rw [if_pos hge]
  · intro hlt
    unfold SimpleVector.At
    rw [if_neg (by omega)]

/-- Witness for C8 at `s = [5]`, `i = 0` over `Nat`. -/
theorem C8_at_spec_witness :
    (SimpleVector.fromList [5] : SimpleVector Nat).At 0
      = Except.ok ((SimpleVector.fromList [5] : SimpleVector Nat).data.getD 0
          default) :=
  (C8_at_spec (SimpleVector.fromList [5]) 0).2 (by decide)

/-- C9: every constructor establishes, and every operation (`PushBack`,
`Insert`, `Erase`, `PopBack`, `Clear`, `Resize`, `Reserve`, `swap`, both
assignments, both move results) preserves, the invariant
`size ≤ capacity ≤ allocated length` (positional preconditions of `Insert`
and `Erase` assumed, as asserted in the source).  All slots of the model hold
values by construction, so the slots `[0, size)` hold valid element values. -/
theorem C9_invariant_spec [Inhabited α] (s t : SimpleVector α) (v : α)
    (n k : Nat) (l : List α) (h : s.Inv) (ht : t.Inv) :
    (SimpleVector.mkDefault : SimpleVector α).Inv
    ∧ (SimpleVector.mkSized (α := α) n).Inv
    ∧ (SimpleVector.mkFilled n v).Inv
    ∧ (SimpleVector.fromList (α := α) l).Inv
    ∧ (SimpleVector.mkReserved (α := α) n).Inv
    ∧ (SimpleVector.copyCtor s).Inv
    ∧ (SimpleVector.moveCtor s).1.Inv
    ∧ (SimpleVector.moveCtor s).2.Inv
    ∧ (SimpleVector.copyAssign t s).Inv
    ∧ (s.moveAssign t).1.Inv
    ∧ (s.moveAssign t).2.Inv
    ∧ (SimpleVector.swapOp s t).1.Inv
    ∧ (SimpleVector.swapOp s t).2.Inv
    ∧ (s.PushBack v).Inv
    ∧ (k ≤ s.size → (s.Insert k v).Inv)
    ∧ (k < s.size → (s.Erase k).Inv)
    ∧ s.PopBack.Inv
    ∧ s.Clear.Inv
    ∧ (s.Resize n).Inv
    ∧ (s.Reserve n).Inv := by
  have hcc : ∀ u : SimpleVector α, (SimpleVector.copyCtor u).Inv := by
    intro u
    refine ⟨le_refl _, ?_⟩
    show u.size ≤ (movePrefix u.elems (List.replicate u.size default)).length
    rw [movePrefix_length, List.length_replicate]
    exact le_max_right _ _
  refine ⟨⟨le_refl _, le_refl _⟩, ?_, ?_, ?_, ?_, hcc s, h, ⟨le_refl _, le_refl _⟩,
    ?_, ht, h, ht, h, (SimpleVector.pushBack_spec h v).2,
    fun hk => (SimpleVector.insert_spec h hk v).2.2,
    fun hk => (SimpleVector.erase_spec h hk).2.2.2, ?_,
    ⟨Nat.zero_le _, h.2⟩, SimpleVector.resize_inv n h,
    SimpleVector.reserve_inv n h⟩
  · exact ⟨le_refl _, by simp [SimpleVector.mkSized]⟩
  · exact ⟨le_refl _, by simp [SimpleVector.mkFilled]⟩
  · refine ⟨le_refl _, ?_⟩
    show l.length ≤ (movePrefix l (List.replicate l.length default)).length
    rw [movePrefix_length, List.length_replicate]
    exact le_max_left _ _
  · exact ⟨Nat.zero_le _, by simp [SimpleVector.mkReserved]⟩
  · unfold SimpleVector.copyAssign
    by_cases he : s.IsEmpty = true
    · rw [if_pos he]
      exact ⟨le_refl _, le_refl _⟩
    · rw [if_neg he]
      exact hcc s
  · unfold SimpleVector.PopBack
    by_cases he : s.IsEmpty = true
    · rw [if_pos he]
      exact h
    · rw [if_neg he]
      have h1 := h.1
      exact ⟨by show s.size - 1 ≤ s.capacity; omega, h.2⟩

/-- Witness for C9: `PushBack` on the concrete vector `[1, 2]` preserves the
invariant. -/
theorem C9_invariant_spec_witness :
    ((SimpleVector.fromList [1, 2] : SimpleVector Nat).PushBack 3).Inv :=
  (C9_invariant_spec (SimpleVector.fromList [1, 2])
      (SimpleVector.fromList [4]) 3 5 1 [9]
      (by decide) (by decide)).2.2.2.2.2.2.2.2.2.2.2.2.2.1

/-- C10: `Erase` at a valid position and `PopBack` never change the capacity,
and each leaves the elements strictly before the erased/removed position
unchanged (`PopBack` removes the last live element, so the whole remaining
prefix is unchanged). -/
theorem C10_frame_spec (s : SimpleVector α) (k : Nat) (h : s.Inv) :
    s.PopBack.capacity = s.capacity
    ∧ s.PopBack.elems = s.elems.take (s.size - 1)
    ∧ (k < s.size →
        (s.Erase k).capacity = s.capacity
          ∧ (s.Erase k).elems.take k = s.elems.take k) := by
  refine ⟨?_, ?_, fun hk => ⟨rfl, ?_⟩⟩
  · unfold SimpleVector.PopBack
    by_cases he : s.IsEmpty = true
    · rw [if_pos he]
    · rw [if_neg he]
  · unfold SimpleVector.PopBack
    by_cases he : s.IsEmpty = true
    · rw [if_pos he]
      have h0 : s.size = 0 := by simpa [SimpleVector.IsEmpty] using he
      simp [SimpleVector.elems, h0]
    · rw [if_neg he]
      show s.data.take (s.size - 1) = (s.data.take s.size).take (s.size - 1)
      rw [List.take_take, min_eq_left (by omega)]
  · obtain ⟨he2, _, _, _⟩ := SimpleVector.erase_spec h hk
    have hlen : (s.elems.take k).length = k := by
      have := SimpleVector.elems_length h
      simp only [List.length_take]
      omega
    rw [he2, List.take_left' hlen]

/-- Witness for C10 at `s = [1, 2, 3]`, `k = 1` over `Nat`. -/
theorem C10_frame_spec_witness :
    ((SimpleVector.fromList [1, 2, 3] : SimpleVector Nat).Erase 1).capacity
      = (SimpleVector.fromList [1, 2, 3] : SimpleVector Nat).capacity :=
  ((C10_frame_spec (SimpleVector.fromList [1, 2, 3]) 1 (by decide)).2.2
    (by decide)).1

end SimpleVec
